import Mathlib

/-!
Verification of the batch-job coordinator in src/src/main.rs.

The embedding covers the coordinator core: the shared job state
(struct AppState), the add-server and start-job handlers, one
iteration of the per-worker poll loop spawned by start_job, the
status view rendered by the update handler, and the result
aggregator fn keyboard. Machine integers of the source (usize) are
modelled as Nat; the f32 score is modelled as Option of a rational,
where some q is an ordinary comparable value and none is a NaN, the
one float feature the code interacts with (partial_cmp returns None
exactly when an operand is NaN). Panics are modelled with Except.
-/

namespace ComposeKeys

/-- struct Key of lines 76 to 79: lower and upper character of one key. -/
structure Key where
  lower : Char
  upper : Char
deriving DecidableEq

/-- struct Keyboard of lines 68 to 72: a score and a fixed array of
47 keys. The f32 score is Option of a rational, none standing for NaN. -/
structure Keyboard where
  score : Option ℚ
  keys : List Key
  hkeys : keys.length = 47

/-- Result of a.score.partial_cmp(b.score) on f32 as used on line 383:
some ordering when both operands are comparable, none when either is NaN. -/
def cmpScore : Option ℚ → Option ℚ → Option Ordering
  | some a, some b =>
      some (if a < b then Ordering.lt else if a = b then Ordering.eq else Ordering.gt)
  | _, _ => none

/-- One insertion step of the stable ascending sort performed by
keyboards.sort_by on line 383, with the comparator
a.score.partial_cmp(b.score).unwrap(): a comparison of incomparable
scores is the unwrap panic, modelled as Except.error. -/
def insertE (x : Keyboard) : List Keyboard → Except Unit (List Keyboard)
  | [] => Except.ok [x]
  | y :: l =>
    match cmpScore x.score y.score with
    | none => Except.error ()
    | some Ordering.gt => (insertE x l).map (fun t => y :: t)
    | some _ => Except.ok (x :: y :: l)

/-- The stable ascending sort of line 383 with the panicking comparator. -/
def sortE : List Keyboard → Except Unit (List Keyboard)
  | [] => Except.ok []
  | x :: l => (sortE l).bind (insertE x)

/-- The four display rows built on lines 388 to 431: key slices
0..13, 13..26, 26..37 and 37..47, each button showing the upper char. -/
def keyRows (k : Keyboard) : List (List Char) :=
  [(k.keys.take 13).map Key.upper,
   ((k.keys.drop 13).take 13).map Key.upper,
   ((k.keys.drop 26).take 11).map Key.upper,
   ((k.keys.drop 37).take 10).map Key.upper]

/-- fn keyboard of lines 381 to 434, the result aggregator: the empty
input renders the empty string (ok none); otherwise the list is sorted
ascending by score and the first element is rendered (ok some rows); a
comparison of a NaN score is the unwrap panic (error). -/
def keyboard (keyboards : List Keyboard) : Except Unit (Option (List (List Char))) :=
  match keyboards with
  | [] => Except.ok none
  | x :: l =>
    match sortE (x :: l) with
    | Except.error e => Except.error e
    | Except.ok s => Except.ok (some (keyRows (s.headD x)))

/-- struct AppState of lines 22 to 30: the shared coordinator state
behind Arc Mutex. -/
structure AppState where
  hosts : List String
  job_name : String
  running : Bool
  batches : Nat
  batch_size : Nat
  completed : Nat
  keyboards : List Keyboard

/-- impl Default for AppState, lines 32 to 44. -/
def initialState : AppState :=
  { hosts := [], job_name := "", running := false, batches := 0,
    batch_size := 0, completed := 0, keyboards := [] }

/-- enum UpdateResp of lines 48 to 57: the worker status report. -/
inductive UpdateResp where
  | Init : UpdateResp
  | InProgress (batch_size completed : Nat) : UpdateResp
  | BatchComplete (keyboards : List Keyboard) : UpdateResp

/-- struct BatchReq of lines 60 to 65: the outbound batch assignment. -/
structure BatchReq where
  job_name : String
  device_name : String
  batch_size : Nat
  batch_number : Nat
deriving DecidableEq

/-- Outcome of the start-job handler: the error page of lines 292 to 295,
or the started page together with the list of hosts for which poll loops
are spawned (the snapshot state.hosts.clone() of line 301). -/
inductive StartJobOutcome where
  | rejected : StartJobOutcome
  | started (spawned : List String) : StartJobOutcome

/-- What one poll-loop iteration does next: sleep five seconds and
requery (line 318), post a BatchReq to the worker and continue looping
(lines 322 to 332 and 343 to 353), or break out of the loop
(lines 335 and 356). -/
inductive LoopAction where
  | sleep : LoopAction
  | send (req : BatchReq) : LoopAction
  | terminate : LoopAction

/-- fn add_server, lines 264 to 269: push the host onto the registry. -/
def add_server (host : String) (s : AppState) : AppState :=
  { s with hosts := s.hosts ++ [host] }

/-- fn start_job, lines 286 to 302: under the lock, reject when a job
is already running, else set the job fields and the running flag and
snapshot the hosts for which poll loops are spawned. -/
def start_job (job_name : String) (batch_size batches : Nat) (s : AppState) :
    AppState × StartJobOutcome :=
  if s.running then (s, StartJobOutcome.rejected)
  else
    ({ s with job_name := job_name, batches := batches,
              batch_size := batch_size, running := true },
     StartJobOutcome.started s.hosts)

/-- One iteration of the poll loop of lines 307 to 360, given the parsed
worker response: the state mutation performed under the lock and the
resulting action. -/
def poll_step (host : String) (resp : UpdateResp) (s : AppState) :
    AppState × LoopAction :=
  match resp with
  | UpdateResp.InProgress _ _ => (s, LoopAction.sleep)
  | UpdateResp.Init =>
      if s.completed < s.batches then
        (s, LoopAction.send
              { job_name := s.job_name, device_name := host,
                batch_size := s.batch_size, batch_number := s.completed })
      else
        ({ s with running := false }, LoopAction.terminate)
  | UpdateResp.BatchComplete ks =>
      let s2 := { s with completed := s.completed + 1,
                         keyboards := s.keyboards ++ ks }
      if s2.completed < s2.batches then
        (s2, LoopAction.send
               { job_name := s2.job_name, device_name := host,
                 batch_size := s2.batch_size, batch_number := s2.completed })
      else
        ({ s2 with running := false }, LoopAction.terminate)

/-- Result of the worker query of lines 308 to 315 before any state is
touched: a parsed response, or a transport or parse failure. -/
inductive QueryResult where
  | ok (resp : UpdateResp) : QueryResult
  | transportFailure : QueryResult
  | parseFailure : QueryResult

/-- One poll-loop iteration including the fallible query of lines 308
to 315: the two expect calls turn a transport or parse failure into a
panic of the poll-loop task, modelled as Except.error carrying the
panic message; no state is read or written on that path (the lock is
taken only after a successful parse). -/
def poll_query_step (host : String) (q : QueryResult) (s : AppState) :
    Except String (AppState × LoopAction) :=
  match q with
  | QueryResult.transportFailure => Except.error "failed request"
  | QueryResult.parseFailure => Except.error "failed parse"
  | QueryResult.ok resp => Except.ok (poll_step host resp s)

/-- The status view rendered by fn update, lines 224 to 262: running
job, complete job (some keyboards and not running), or INIT; the two
job views embed the aggregated best result. The handler reads the
state under the lock and mutates nothing, as the return type records. -/
inductive StatusView where
  | jobRunning (job_name : String) (best : Except Unit (Option (List (List Char)))) : StatusView
  | jobComplete (job_name : String) (best : Except Unit (Option (List (List Char)))) : StatusView
  | initView : StatusView

/-- fn update, lines 224 to 262. -/
def update (s : AppState) : StatusView :=
  if s.running then StatusView.jobRunning s.job_name (keyboard s.keyboards)
  else if 0 < s.keyboards.length then
    StatusView.jobComplete s.job_name (keyboard s.keyboards)
  else StatusView.initView

/-- A sequence of add-server calls applied in order. -/
def applyAdds (ws : List String) (s : AppState) : AppState :=
  ws.foldl (fun st h => add_server h st) s

/-- A keyboard of score 3.1 whose 47 keys all read a and A. -/
def kbA : Keyboard := ⟨some (mkRat 31 10), List.replicate 47 ⟨'a', 'A'⟩, rfl⟩

/-- A keyboard of score 1.2 whose 47 keys all read b and B. -/
def kbB : Keyboard := ⟨some (mkRat 12 10), List.replicate 47 ⟨'b', 'B'⟩, rfl⟩

/-- A keyboard of score 5.0 whose 47 keys all read c and C. -/
def kbC : Keyboard := ⟨some (mkRat 5 1), List.replicate 47 ⟨'c', 'C'⟩, rfl⟩

/-- A keyboard whose f32 score is NaN. -/
def kbNaN : Keyboard := ⟨none, List.replicate 47 ⟨'n', 'N'⟩, rfl⟩

/-- The two-worker scenario of the spec: register http://w1 and
http://w2 on a fresh state, then start job-a with batch_size 10 and
2 total batches. -/
def scenarioStart : AppState × StartJobOutcome :=
  start_job "job-a" 10 2 (add_server "http://w2" (add_server "http://w1" initialState))

/-- A sample state with a running job, one completed batch of two. -/
def sampleRunning : AppState :=
  { hosts := ["http://w1"], job_name := "job-a", running := true,
    batches := 2, batch_size := 10, completed := 1, keyboards := [] }

/-- A sample idle state with one registered worker. -/
def sampleIdle : AppState :=
  { hosts := ["http://w1"], job_name := "", running := false,
    batches := 0, batch_size := 0, completed := 0, keyboards := [] }

/-- The total order used to state minimality of the best result: compare
the two scores, a missing (NaN) score collapsing to zero; on NaN-free
inputs it coincides with the comparator of line 383. -/
def rle (a b : Keyboard) : Prop := a.score.getD 0 ≤ b.score.getD 0

instance : DecidableRel rle := fun a b =>
  inferInstanceAs (Decidable (a.score.getD 0 ≤ b.score.getD 0))

instance : IsTotal Keyboard rle := ⟨fun _ _ => le_total _ _⟩

instance : IsTrans Keyboard rle := ⟨fun _ _ _ hab hbc => le_trans hab hbc⟩

/-- Every score in the list is an ordinary comparable value, not NaN. -/
def AllSome (l : List Keyboard) : Prop := ∀ k ∈ l, (k.score).isSome

theorem cmpScore_none_left (o : Option ℚ) : cmpScore none o = none := by
  cases o <;> rfl

theorem cmpScore_none_right (o : Option ℚ) : cmpScore o none = none := by
  cases o <;> rfl

theorem cmpScore_lt {a b : ℚ} (h : a < b) :
    cmpScore (some a) (some b) = some Ordering.lt := by
  simp [cmpScore, h]

theorem cmpScore_eq {a b : ℚ} (h : a = b) :
    cmpScore (some a) (some b) = some Ordering.eq := by
  simp [cmpScore, h]

theorem cmpScore_gt {a b : ℚ} (h : b < a) :
    cmpScore (some a) (some b) = some Ordering.gt := by
  simp [cmpScore, not_lt_of_gt h, (ne_of_gt h)]

/-- On NaN-free inputs the fallible insertion step of line 383 succeeds
and agrees with the ordered insert of the rle order. -/
theorem insertE_eq_orderedInsert (x : Keyboard) (hx : (x.score).isSome) :
    ∀ l : List Keyboard, AllSome l →
      insertE x l = Except.ok (List.orderedInsert rle x l) := by
  intro l
  induction l with
  | nil => intro _; rfl
  | cons y l ih =>
    intro h
    obtain ⟨a, ha⟩ := Option.isSome_iff_exists.mp hx
    obtain ⟨b, hb⟩ := Option.isSome_iff_exists.mp (h y (List.mem_cons_self y l))
    have hl : AllSome l := fun k hk => h k (List.mem_cons_of_mem y hk)
    have hxy : rle x y ↔ a ≤ b := by simp [rle, ha, hb]
    rcases lt_trichotomy a b with hab | hab | hab
    · have hc : cmpScore x.score y.score = some Ordering.lt := by
        rw [ha, hb]; exact cmpScore_lt hab
      simp [insertE, hc, List.orderedInsert, hxy.mpr hab.le]
    · have hc : cmpScore x.score y.score = some Ordering.eq := by
        rw [ha, hb]; exact cmpScore_eq hab
      simp [insertE, hc, List.orderedInsert, hxy.mpr hab.le]
    · have hc : cmpScore x.score y.score = some Ordering.gt := by
        rw [ha, hb]; exact cmpScore_gt hab
      have hnot : ¬ rle x y := fun hr => absurd (hxy.mp hr) (not_le_of_gt hab)
      simp [insertE, hc, List.orderedInsert, hnot, ih hl, Except.map]

/-- On NaN-free inputs the sort of line 383 succeeds and agrees with
insertion sort by the rle order. -/
theorem sortE_eq_insertionSort :
    ∀ l : List Keyboard, AllSome l →
      sortE l = Except.ok (List.insertionSort rle l) := by
  intro l
  induction l with
  | nil => intro _; rfl
  | cons x l ih =>
    intro h
    have hl : AllSome l := fun k hk => h k (List.mem_cons_of_mem x hk)
    have hx := h x (List.mem_cons_self x l)
    have hsl : AllSome (List.insertionSort rle l) := fun k hk =>
      hl k ((List.perm_insertionSort rle l).mem_iff.mp hk)
    show (sortE l).bind (insertE x) = _
    rw [ih hl]
    show insertE x (List.insertionSort rle l) = _
    rw [insertE_eq_orderedInsert x hx _ hsl]
    rfl

/-- On a NaN-free nonempty input, the sorted list is nonempty, its head
belongs to the input and its head is rle-below every input element. -/
theorem sortE_head_min (x : Keyboard) (l : List Keyboard)
    (h : AllSome (x :: l)) :
    ∃ k t, sortE (x :: l) = Except.ok (k :: t) ∧ k ∈ x :: l ∧
      ∀ y ∈ x :: l, rle k y := by
  have hs := sortE_eq_insertionSort (x :: l) h
  have hperm := List.perm_insertionSort rle (x :: l)
  have hne : List.insertionSort rle (x :: l) ≠ [] := by
    intro hnil
    have := hperm.length_eq
    rw [hnil] at this
    simp at this
  obtain ⟨k, t, hkt⟩ := List.exists_cons_of_ne_nil hne
  refine ⟨k, t, by rw [hs, hkt], ?_, ?_⟩
  · exact hperm.mem_iff.mp (by rw [hkt]; exact List.mem_cons_self k t)
  · intro y hy
    have hy2 : y ∈ k :: t := by rw [← hkt]; exact hperm.mem_iff.mpr hy
    have hsorted : List.Sorted rle (k :: t) := by
      rw [← hkt]; exact List.sorted_insertionSort rle (x :: l)
    rcases List.mem_cons.mp hy2 with hyk | hyt
    · rw [hyk]; exact le_refl _
    · exact List.rel_of_sorted_cons hsorted y hyt

/-- A sort of at least two keyboards among which some score is NaN
always reaches a comparison with the NaN operand and panics. -/
theorem sortE_nan_panics :
    ∀ l : List Keyboard, 2 ≤ l.length → (∃ x ∈ l, x.score = none) →
      sortE l = Except.error () := by
  intro l
  induction l with
  | nil => intro h; simp at h
  | cons x xs ih =>
    intro hlen hnan
    by_cases hxs : ∃ y ∈ xs, y.score = none
    · match xs, hxs with
      | [], hxs => simp at hxs
      | [y], hxs =>
        have hy : y.score = none := by
          obtain ⟨z, hz, hzn⟩ := hxs
          rw [List.mem_singleton.mp hz] at hzn; exact hzn
        show (sortE [y]).bind (insertE x) = Except.error ()
        have h1 : sortE [y] = Except.ok [y] := rfl
        rw [h1]
        show insertE x [y] = Except.error ()
        simp [insertE, hy, cmpScore_none_right]
      | y :: z :: xs, hxs =>
        have h2 : sortE (y :: z :: xs) = Except.error () :=
          ih (by simp) hxs
        show (sortE (y :: z :: xs)).bind (insertE x) = Except.error ()
        rw [h2]; rfl
    · have hx : x.score = none := by
        obtain ⟨z, hz, hzn⟩ := hnan
        rcases List.mem_cons.mp hz with hzx | hzxs
        · rw [← hzx]; exact hzn
        · exact absurd ⟨z, hzxs, hzn⟩ hxs
      have hall : AllSome xs := by
        intro k hk
        cases hks : k.score with
        | none => exact absurd ⟨k, hk, hks⟩ hxs
        | some q => simp [hks]
      have hxe : xs ≠ [] := by
        intro hnil
        rw [hnil] at hlen
        simp at hlen
      have hs := sortE_eq_insertionSort xs hall
      have hne : List.insertionSort rle xs ≠ [] := by
        intro hnil
        have := (List.perm_insertionSort rle xs).length_eq
        rw [hnil] at this
        exact hxe (List.length_eq_zero.mp this.symm)
      obtain ⟨k, t, hkt⟩ := List.exists_cons_of_ne_nil hne
      show (sortE xs).bind (insertE x) = Except.error ()
      rw [hs, hkt]
      show insertE x (k :: t) = Except.error ()
      simp [insertE, hx, cmpScore_none_left]

/-- On a NaN-free nonempty input, fn keyboard returns the rows of an
element of the input that is rle-minimal. -/
theorem keyboard_ok_best (l : List Keyboard) (hne : l ≠ []) (hs : AllSome l) :
    ∃ k ∈ l, keyboard l = Except.ok (some (keyRows k)) ∧ ∀ y ∈ l, rle k y := by
  obtain ⟨x, xs, rfl⟩ := List.exists_cons_of_ne_nil hne
  obtain ⟨k, t, hsort, hmem, hmin⟩ := sortE_head_min x xs hs
  refine ⟨k, hmem, ?_, hmin⟩
  have : keyboard (x :: xs) = Except.ok (some (keyRows ((k :: t).headD x))) := by
    simp only [keyboard]
    rw [hsort]
  simpa using this

/-- C4: fn keyboard (bestResult) on the empty list yields the empty
display without error; on any nonempty list of comparable scores it
returns the 47-key layout of an element of minimum score (ascending
sort, first element), grouped into four rows of 13, 13, 11 and 10 keys;
on scores 3.1, 1.2 and 5.0 it returns the layout of the score 1.2
element; being a pure function of a cloned vector it mutates nothing. -/
theorem keyboard_best_result :
    keyboard [] = Except.ok none ∧
    (∀ l : List Keyboard, l ≠ [] → AllSome l →
      ∃ k ∈ l, keyboard l = Except.ok (some (keyRows k)) ∧
        (∀ y ∈ l, ∀ a b : ℚ, k.score = some a → y.score = some b → a ≤ b) ∧
        (keyRows k).map List.length = [13, 13, 11, 10]) ∧
    (kbB.score = some (12 / 10 : ℚ) ∧
     keyboard [kbA, kbB, kbC] = Except.ok (some (keyRows kbB))) := by
  refine ⟨rfl, ?_, ?_, ?_⟩
  · intro l hne hs
    obtain ⟨k, hk, hkeq, hmin⟩ := keyboard_ok_best l hne hs
    refine ⟨k, hk, hkeq, ?_, ?_⟩
    · intro y hy a b hka hyb
      have hr := hmin y hy
      simp only [rle, hka, hyb, Option.getD_some] at hr
      exact hr
    · simp [keyRows, k.hkeys]
  · norm_num [kbB, Rat.mkRat_eq_div]
  · rfl

/-- C4 witness: the general clause instantiated on the singleton list
holding the score 1.2 keyboard. -/
theorem keyboard_best_result_witness :
    (([kbB] : List Keyboard) ≠ [] ∧ AllSome [kbB]) ∧
    (∃ k ∈ ([kbB] : List Keyboard),
      keyboard [kbB] = Except.ok (some (keyRows k)) ∧
        (∀ y ∈ ([kbB] : List Keyboard),
          ∀ a b : ℚ, k.score = some a → y.score = some b → a ≤ b) ∧
        (keyRows k).map List.length = [13, 13, 11, 10]) :=
  ⟨⟨by simp, by simp [AllSome, kbB]⟩,
   keyboard_best_result.2.1 [kbB] (by simp) (by simp [AllSome, kbB])⟩

/-- C10 counterexample: the claim says any nonempty input holding a NaN
score panics, but on the singleton NaN list the sort of a one-element
vector never invokes the comparator, so fn keyboard returns that
element's layout normally. -/
theorem keyboard_nan_singleton_returns :
    kbNaN.score = none ∧ ([kbNaN] : List Keyboard) ≠ [] ∧
    keyboard [kbNaN] = Except.ok (some (keyRows kbNaN)) :=
  ⟨rfl, by simp, rfl⟩

/-- C10 (amended): with at least two keyboards in the input and any NaN
score among them, the comparator partial_cmp(..).unwrap() of line 383 is
reached on a NaN operand and panics; on every nonempty input whose
scores are all comparable the unwrap never fails and fn keyboard
returns a layout normally. -/
theorem keyboard_nan_unwrap :
    (∀ l : List Keyboard, 2 ≤ l.length → (∃ x ∈ l, x.score = none) →
      keyboard l = Except.error ()) ∧
    (∀ l : List Keyboard, l ≠ [] → AllSome l →
      ∃ v, keyboard l = Except.ok (some v)) := by
  constructor
  · intro l hlen hnan
    have hne : l ≠ [] := by
      intro h
      rw [h] at hlen
      simp at hlen
    obtain ⟨x, xs, rfl⟩ := List.exists_cons_of_ne_nil hne
    have hs := sortE_nan_panics (x :: xs) hlen hnan
    simp only [keyboard]
    rw [hs]
  · intro l hne hs
    obtain ⟨k, _, hkeq, _⟩ := keyboard_ok_best l hne hs
    exact ⟨keyRows k, hkeq⟩

/-- C10 witness: a two-element list holding the NaN keyboard panics. -/
theorem keyboard_nan_unwrap_witness :
    (2 ≤ ([kbNaN, kbA] : List Keyboard).length ∧
      (∃ x ∈ ([kbNaN, kbA] : List Keyboard), x.score = none)) ∧
    keyboard [kbNaN, kbA] = Except.error () :=
  ⟨⟨by simp, ⟨kbNaN, by simp, rfl⟩⟩,
   keyboard_nan_unwrap.1 [kbNaN, kbA] (by simp) ⟨kbNaN, by simp, rfl⟩⟩

/-- An add-server sequence only appends to the hosts registry. -/
theorem applyAdds_eq : ∀ (ws : List String) (s : AppState),
    applyAdds ws s = { s with hosts := s.hosts ++ ws } := by
  intro ws
  induction ws with
  | nil => intro s; simp [applyAdds]
  | cons w ws ih =>
    intro s
    show applyAdds ws (add_server w s) = _
    rw [ih]
    simp [add_server]

/-- C1: start_job on a state whose running flag is true returns the
job-already-in-progress error page and leaves the whole state, hosts
registry included, exactly as it was; the rejected outcome carries no
spawned hosts, so no poll loops are started. -/
theorem start_job_rejects_when_running :
    ∀ (n : String) (bs b : Nat) (s : AppState), s.running = true →
      start_job n bs b s = (s, StartJobOutcome.rejected) := by
  intro n bs b s h
  simp [start_job, h]

/-- C1 witness: rejection on a concrete running state. -/
theorem start_job_rejects_when_running_witness :
    sampleRunning.running = true ∧
    start_job "job-b" 3 4 sampleRunning = (sampleRunning, StartJobOutcome.rejected) :=
  ⟨rfl, start_job_rejects_when_running "job-b" 3 4 sampleRunning rfl⟩

/-- C2: handling BatchComplete increments completed by exactly one and
appends the received keyboards, touching no other field; then, when the
post-increment completed is still below batches, it sends a BatchReq
whose batch_number is the post-increment completed and keeps looping
with the running flag untouched, else it clears running and breaks. -/
theorem poll_batch_complete_spec :
    ∀ (host : String) (ks : List Keyboard) (s : AppState),
      (poll_step host (UpdateResp.BatchComplete ks) s).1.completed = s.completed + 1 ∧
      (poll_step host (UpdateResp.BatchComplete ks) s).1.keyboards = s.keyboards ++ ks ∧
      (poll_step host (UpdateResp.BatchComplete ks) s).1.job_name = s.job_name ∧
      (poll_step host (UpdateResp.BatchComplete ks) s).1.batches = s.batches ∧
      (poll_step host (UpdateResp.BatchComplete ks) s).1.batch_size = s.batch_size ∧
      (poll_step host (UpdateResp.BatchComplete ks) s).1.hosts = s.hosts ∧
      (s.completed + 1 < s.batches →
        (poll_step host (UpdateResp.BatchComplete ks) s).2 =
          LoopAction.send { job_name := s.job_name, device_name := host,
                            batch_size := s.batch_size,
                            batch_number := s.completed + 1 } ∧
        (poll_step host (UpdateResp.BatchComplete ks) s).1.running = s.running) ∧
      (¬ s.completed + 1 < s.batches →
        (poll_step host (UpdateResp.BatchComplete ks) s).2 = LoopAction.terminate ∧
        (poll_step host (UpdateResp.BatchComplete ks) s).1.running = false) := by
  intro host ks s
  by_cases h : s.completed + 1 < s.batches <;> simp [poll_step, h]

/-- C2 witness: the terminating branch on a concrete state where the
incremented counter reaches the batch total. -/
theorem poll_batch_complete_spec_witness :
    ¬ sampleRunning.completed + 1 < sampleRunning.batches ∧
    ((poll_step "http://w1" (UpdateResp.BatchComplete []) sampleRunning).2 =
        LoopAction.terminate ∧
      (poll_step "http://w1" (UpdateResp.BatchComplete []) sampleRunning).1.running = false) :=
  ⟨by decide,
   (poll_batch_complete_spec "http://w1" [] sampleRunning).2.2.2.2.2.2.2 (by decide)⟩

/-- C3: handling Init mutates nothing when completed is below batches
and merely sends a BatchReq numbered with the current completed value;
otherwise the only change is clearing the running flag, and the loop
terminates. -/
theorem poll_init_spec :
    ∀ (host : String) (s : AppState),
      (s.completed < s.batches →
        poll_step host UpdateResp.Init s =
          (s, LoopAction.send { job_name := s.job_name, device_name := host,
                                batch_size := s.batch_size,
                                batch_number := s.completed })) ∧
      (¬ s.completed < s.batches →
        poll_step host UpdateResp.Init s =
          ({ s with running := false }, LoopAction.terminate)) := by
  intro host s
  constructor <;> intro h <;> simp [poll_step, h]

/-- C3 witness: the assignment branch on a concrete mid-job state. -/
theorem poll_init_spec_witness :
    sampleRunning.completed < sampleRunning.batches ∧
    poll_step "http://w1" UpdateResp.Init sampleRunning =
      (sampleRunning,
       LoopAction.send { job_name := sampleRunning.job_name,
                         device_name := "http://w1",
                         batch_size := sampleRunning.batch_size,
                         batch_number := sampleRunning.completed }) :=
  ⟨by decide, (poll_init_spec "http://w1" sampleRunning).1 (by decide)⟩

/-- C5: in the two-worker scenario with both workers reporting Init
before any completion, the code assigns batch_number 0 to both
http://w1 and http://w2: the first Init handling leaves the state
unchanged, so the second worker reads the same completed value 0. The
claim that batch 0 is never assigned twice fails on this code. -/
theorem duplicate_batch_zero_assignment :
    scenarioStart.2 = StartJobOutcome.started ["http://w1", "http://w2"] ∧
    (poll_step "http://w1" UpdateResp.Init scenarioStart.1).2 =
      LoopAction.send { job_name := "job-a", device_name := "http://w1",
                        batch_size := 10, batch_number := 0 } ∧
    (poll_step "http://w1" UpdateResp.Init scenarioStart.1).1 = scenarioStart.1 ∧
    (poll_step "http://w2" UpdateResp.Init scenarioStart.1).2 =
      LoopAction.send { job_name := "job-a", device_name := "http://w2",
                        batch_size := 10, batch_number := 0 } :=
  ⟨rfl, rfl, rfl, rfl⟩

/-- C6: a successful start_job spawns poll loops for exactly the hosts
registered at start time; a later add_server commutes with every poll
step, changes no job field, and the started snapshot, being a value,
is unaffected by it. -/
theorem start_job_snapshot :
    ∀ (ws : List String) (n : String) (bs b : Nat) (s : AppState),
      s.running = false →
      ((start_job n bs b (applyAdds ws s)).2 =
          StartJobOutcome.started (s.hosts ++ ws) ∧
        (applyAdds ws s).hosts = s.hosts ++ ws) ∧
      (∀ (h host : String) (resp : UpdateResp) (s1 : AppState),
        (poll_step host resp (add_server h s1)).1 =
          add_server h (poll_step host resp s1).1 ∧
        (poll_step host resp (add_server h s1)).2 =
          (poll_step host resp s1).2) ∧
      (∀ (h : String) (s1 : AppState),
        (add_server h s1).job_name = s1.job_name ∧
        (add_server h s1).running = s1.running ∧
        (add_server h s1).batches = s1.batches ∧
        (add_server h s1).batch_size = s1.batch_size ∧
        (add_server h s1).completed = s1.completed ∧
        (add_server h s1).keyboards = s1.keyboards) := by
  intro ws n bs b s hrun
  refine ⟨⟨?_, ?_⟩, ?_, ?_⟩
  · rw [applyAdds_eq]; simp [start_job, hrun]
  · rw [applyAdds_eq]
  · intro h host resp s1
    cases resp with
    | InProgress a c => simp [poll_step, add_server]
    | Init =>
      by_cases hc : s1.completed < s1.batches <;>
        simp [poll_step, add_server, hc]
    | BatchComplete ks =>
      by_cases hc : s1.completed + 1 < s1.batches <;>
        simp [poll_step, add_server, hc]
  · intro h s1
    simp [add_server]

/-- C6 witness: a concrete idle state, one add, one start. -/
theorem start_job_snapshot_witness :
    sampleIdle.running = false ∧
    ((start_job "job-a" 10 2 (applyAdds ["http://w2"] sampleIdle)).2 =
        StartJobOutcome.started (sampleIdle.hosts ++ ["http://w2"]) ∧
      (applyAdds ["http://w2"] sampleIdle).hosts =
        sampleIdle.hosts ++ ["http://w2"]) :=
  ⟨rfl, (start_job_snapshot ["http://w2"] "job-a" 10 2 sampleIdle rfl).1⟩

/-- C7: on a transport or parse failure of the worker query, the poll
loop body panics through expect with the fixed message before the lock
is ever taken, so no job state is read or written on that path. The
loop does not log and terminate cleanly as the spec requires. -/
theorem poll_failure_panics :
    ∀ (host : String) (s : AppState),
      poll_query_step host QueryResult.transportFailure s =
        Except.error "failed request" ∧
      poll_query_step host QueryResult.parseFailure s =
        Except.error "failed parse" :=
  fun _ _ => ⟨rfl, rfl⟩

/-- C8: no coordinator operation decreases completed (start_job and
add_server preserve it, every poll branch preserves or increments it);
and with the invariant completed at most batches, under non-racing
scheduling (a completion only arrives while completed is below
batches), whenever a poll step turns the running flag from true to
false the final completed equals batches exactly. -/
theorem completed_monotone :
    (∀ (host : String) (resp : UpdateResp) (s : AppState),
      s.completed ≤ (poll_step host resp s).1.completed) ∧
    (∀ (n : String) (bs b : Nat) (s : AppState),
      (start_job n bs b s).1.completed = s.completed) ∧
    (∀ (h : String) (s : AppState), (add_server h s).completed = s.completed) ∧
    (∀ (host : String) (resp : UpdateResp) (s : AppState),
      s.completed ≤ s.batches →
      (∀ ks, resp = UpdateResp.BatchComplete ks → s.completed < s.batches) →
      (poll_step host resp s).1.completed ≤ (poll_step host resp s).1.batches ∧
      ((poll_step host resp s).1.running = false → s.running = true →
        (poll_step host resp s).1.completed = s.batches)) := by
  refine ⟨?_, ?_, ?_, ?_⟩
  · intro host resp s
    cases resp with
    | InProgress a c => simp [poll_step]
    | Init => by_cases hc : s.completed < s.batches <;> simp [poll_step, hc]
    | BatchComplete ks =>
      by_cases hc : s.completed + 1 < s.batches <;> simp [poll_step, hc]
  · intro n bs b s
    by_cases h : s.running <;> simp [start_job, h]
  · intro h s
    simp [add_server]
  · intro host resp s hinv hrace
    cases resp with
    | InProgress a c =>
      refine ⟨hinv, fun hf ht => ?_⟩
      exact absurd (hf.symm.trans ht) (by simp)
    | Init =>
      by_cases hc : s.completed < s.batches
      · simp only [poll_step, if_pos hc]
        exact ⟨hinv, fun hf ht => absurd (hf.symm.trans ht) (by simp)⟩
      · simp only [poll_step, if_neg hc]
        exact ⟨hinv, fun _ _ => le_antisymm hinv (not_lt.mp hc)⟩
    | BatchComplete ks =>
      have hlt := hrace ks rfl
      by_cases hc : s.completed + 1 < s.batches
      · simp only [poll_step, if_pos hc]
        exact ⟨hc.le, fun hf ht => absurd (hf.symm.trans ht) (by simp)⟩
      · simp only [poll_step, if_neg hc]
        have : s.completed + 1 = s.batches := by omega
        exact ⟨this.le, fun _ _ => this⟩

/-- C8 witness: the exact-completion clause on a concrete state where
the final completion arrives. -/
theorem completed_monotone_witness :
    (sampleRunning.completed ≤ sampleRunning.batches ∧
      sampleRunning.completed < sampleRunning.batches) ∧
    ((poll_step "http://w1" (UpdateResp.BatchComplete []) sampleRunning).1.completed ≤
        (poll_step "http://w1" (UpdateResp.BatchComplete []) sampleRunning).1.batches ∧
      ((poll_step "http://w1" (UpdateResp.BatchComplete []) sampleRunning).1.running = false →
        sampleRunning.running = true →
        (poll_step "http://w1" (UpdateResp.BatchComplete []) sampleRunning).1.completed =
          sampleRunning.batches)) :=
  ⟨⟨by decide, by decide⟩,
   completed_monotone.2.2.2 "http://w1" (UpdateResp.BatchComplete []) sampleRunning
     (by decide) (fun _ _ => by decide)⟩

/-- C9: a successful start_job sets only the three job spec fields and
the running flag; the accumulated keyboards, the completed counter and
the hosts registry pass through unchanged, so results of an earlier
job are never cleared. -/
theorem start_job_frame :
    ∀ (n : String) (bs b : Nat) (s : AppState), s.running = false →
      (start_job n bs b s).1.job_name = n ∧
      (start_job n bs b s).1.batch_size = bs ∧
      (start_job n bs b s).1.batches = b ∧
      (start_job n bs b s).1.running = true ∧
      (start_job n bs b s).1.keyboards = s.keyboards ∧
      (start_job n bs b s).1.completed = s.completed ∧
      (start_job n bs b s).1.hosts = s.hosts ∧
      (start_job n bs b s).2 = StartJobOutcome.started s.hosts := by
  intro n bs b s h
  simp [start_job, h]

/-- C9 witness: the frame condition on a concrete idle state. -/
theorem start_job_frame_witness :
    sampleIdle.running = false ∧
    ((start_job "job-a" 10 2 sampleIdle).1.job_name = "job-a" ∧
      (start_job "job-a" 10 2 sampleIdle).1.batch_size = 10 ∧
      (start_job "job-a" 10 2 sampleIdle).1.batches = 2 ∧
      (start_job "job-a" 10 2 sampleIdle).1.running = true ∧
      (start_job "job-a" 10 2 sampleIdle).1.keyboards = sampleIdle.keyboards ∧
      (start_job "job-a" 10 2 sampleIdle).1.completed = sampleIdle.completed ∧
      (start_job "job-a" 10 2 sampleIdle).1.hosts = sampleIdle.hosts ∧
      (start_job "job-a" 10 2 sampleIdle).2 = StartJobOutcome.started sampleIdle.hosts) := by
  refine ⟨rfl, ?_⟩
  have h := start_job_frame "job-a" 10 2 sampleIdle rfl
  exact ⟨h.1, h.2.1, h.2.2.1, h.2.2.2.1, h.2.2.2.2.1, h.2.2.2.2.2.1,
         h.2.2.2.2.2.2.1, h.2.2.2.2.2.2.2⟩

end ComposeKeys
